import Mathlib

/-!
Verification of the copy-on-write (COW) shared-buffer mechanism of this
repository: the reference-counted `cow_array` of `memory_benchmark.c` and the
layered container-storage model of `containerStorage.c`.

The C heap is embedded shallowly as a `Mem` state holding two slot tables: one
for payload blocks (`int*` arrays) and one for reference counters (`int*`
cells).  Pointers are slot indices; a freed slot holds `none`.  Operations
whose C counterpart can hit undefined behaviour (dereferencing a freed or null
pointer, an out-of-bounds `memcpy` read, a double `free`) return `Option`:
`none` marks the undefined outcome.
-/

/-- Size of the test array in elements (`#define ARRAY_SIZE 120000000`). -/
def ARRAY_SIZE : Nat := 120000000

/-- Number of copies to create for each benchmark (`#define NUM_COPIES 50`). -/
def NUM_COPIES : Nat := 50

/-- Number of modifications per copy (`#define NUM_MODIFICATIONS 2400`). -/
def NUM_MODIFICATIONS : Nat := 2400

/-- The C heap: slot tables for payload arrays and reference counters.
A slot holding `none` has been freed; an index past the end was never
allocated. -/
structure Mem where
  payloads : List (Option (List Int))
  counters : List (Option Int)
deriving DecidableEq, Repr

/-- Dereference a payload pointer: `none` when the slot was freed or never
allocated. -/
def Mem.getPayload (m : Mem) (p : Nat) : Option (List Int) :=
  (m.payloads[p]?).bind id

/-- Dereference a counter pointer: `none` when the slot was freed or never
allocated. -/
def Mem.getCounter (m : Mem) (c : Nat) : Option Int :=
  (m.counters[c]?).bind id

/-- Store a whole payload array into a live slot (models in-place writes). -/
def Mem.setPayload (m : Mem) (p : Nat) (xs : List Int) : Mem :=
  { m with payloads := m.payloads.set p (some xs) }

/-- Store a counter value (`*(arr->ref_count) = v`). -/
def Mem.setCounter (m : Mem) (c : Nat) (v : Int) : Mem :=
  { m with counters := m.counters.set c (some v) }

/-- `free` of a payload block: the slot becomes dead. -/
def Mem.freePayload (m : Mem) (p : Nat) : Mem :=
  { m with payloads := m.payloads.set p none }

/-- `free` of a counter cell: the slot becomes dead. -/
def Mem.freeCounter (m : Mem) (c : Nat) : Mem :=
  { m with counters := m.counters.set c none }

/-- `malloc` of a payload block: a fresh slot at the end of the table. -/
def Mem.allocPayload (m : Mem) (xs : List Int) : Nat × Mem :=
  (m.payloads.length, { m with payloads := m.payloads ++ [some xs] })

/-- `malloc` of a counter cell holding `v`. -/
def Mem.allocCounter (m : Mem) (v : Int) : Nat × Mem :=
  (m.counters.length, { m with counters := m.counters ++ [some v] })

/-- `struct cow_array`: a pointer to the shared data array and a pointer to
the reference count (`memory_benchmark.c`, lines 43-46). -/
structure cow_array where
  data : Nat
  ref_count : Nat
deriving DecidableEq, Repr

/-- `cow_create(int size)` (`memory_benchmark.c`, lines 56-62): allocates a
payload of `size` elements and a counter initialized to 1.  C `malloc` leaves
the payload uninitialized; the junk contents are supplied by the parameter
`junk`.  Allocation failure is modelled separately by `cow_createF`. -/
def cow_create (size : Nat) (junk : Nat → Int) (m : Mem) : cow_array × Mem :=
  let (d, m1) := m.allocPayload ((List.range size).map junk)
  let (c, m2) := m1.allocCounter 1
  (⟨d, c⟩, m2)

/-- `cow_copy(cow_array src)` (`memory_benchmark.c`, lines 73-77):
`dest = src; (*(dest.ref_count))++; return dest;`.  Dereferencing a dead
counter is undefined. -/
def cow_copy (src : cow_array) (m : Mem) : Option (cow_array × Mem) :=
  match m.getCounter src.ref_count with
  | none => none
  | some v => some (src, m.setCounter src.ref_count (v + 1))

/-- `cow_ensure_unique(cow_array* arr)` (`memory_benchmark.c`, lines 88-102).
If the counter exceeds 1: save `old_data`, `malloc` a new block, `memcpy`
exactly `ARRAY_SIZE` elements from the old block (undefined if the old block
is shorter), decrement the original counter, and install a fresh counter of 1.
Otherwise a no-op. -/
def cow_ensure_unique (arr : cow_array) (m : Mem) : Option (cow_array × Mem) :=
  match m.getCounter arr.ref_count with
  | none => none
  | some v =>
    if 1 < v then
      match m.getPayload arr.data with
      | none => none
      | some old =>
        if ARRAY_SIZE ≤ old.length then
          let (d, m1) := m.allocPayload (old.take ARRAY_SIZE)
          let m2 := m1.setCounter arr.ref_count (v - 1)
          let (c, m3) := m2.allocCounter 1
          some (⟨d, c⟩, m3)
        else none
    else some (arr, m)

/-- `cow_free(cow_array* arr)` (`memory_benchmark.c`, lines 112-118):
decrement the counter; when it reaches 0, `free` the payload and the counter.
Dereferencing a dead counter or freeing a dead payload is undefined. -/
def cow_free (arr : cow_array) (m : Mem) : Option Mem :=
  match m.getCounter arr.ref_count with
  | none => none
  | some v =>
    let m1 := m.setCounter arr.ref_count (v - 1)
    if v - 1 = 0 then
      match m1.getPayload arr.data with
      | none => none
      | some _ => some ((m1.freePayload arr.data).freeCounter arr.ref_count)
    else some m1

/-- A read `arr.data[i]` as performed by the benchmark driver: undefined on a
dead payload or an out-of-range index. -/
def cow_read (arr : cow_array) (i : Nat) (m : Mem) : Option Int :=
  match m.getPayload arr.data with
  | none => none
  | some xs => xs[i]?

/-- A write `arr.data[i] = v` as performed by the benchmark driver: undefined
on a dead payload or an out-of-range index. -/
def writeIdx (arr : cow_array) (i : Nat) (v : Int) (m : Mem) : Option Mem :=
  match m.getPayload arr.data with
  | none => none
  | some xs =>
    if i < xs.length then some (m.setPayload arr.data (xs.set i v)) else none

/-! Basic facts about the heap model. -/

@[simp] theorem Mem.getPayload_setCounter (m : Mem) (c : Nat) (v : Int) (p : Nat) :
    (m.setCounter c v).getPayload p = m.getPayload p := rfl

@[simp] theorem Mem.getCounter_setPayload (m : Mem) (p : Nat) (xs : List Int) (c : Nat) :
    (m.setPayload p xs).getCounter c = m.getCounter c := rfl

@[simp] theorem Mem.getPayload_freeCounter (m : Mem) (c p : Nat) :
    (m.freeCounter c).getPayload p = m.getPayload p := rfl

@[simp] theorem Mem.getCounter_freePayload (m : Mem) (p c : Nat) :
    (m.freePayload p).getCounter c = m.getCounter c := rfl

@[simp] theorem Mem.getPayload_allocCounter (m : Mem) (v : Int) (p : Nat) :
    (m.allocCounter v).2.getPayload p = m.getPayload p := rfl

@[simp] theorem Mem.getCounter_allocPayload (m : Mem) (xs : List Int) (c : Nat) :
    (m.allocPayload xs).2.getCounter c = m.getCounter c := rfl

@[simp] theorem Mem.payloads_setCounter (m : Mem) (c : Nat) (v : Int) :
    (m.setCounter c v).payloads = m.payloads := rfl

@[simp] theorem Mem.counters_setPayload (m : Mem) (p : Nat) (xs : List Int) :
    (m.setPayload p xs).counters = m.counters := rfl

@[simp] theorem Mem.payloads_allocCounter (m : Mem) (v : Int) :
    (m.allocCounter v).2.payloads = m.payloads := rfl

@[simp] theorem Mem.counters_allocPayload (m : Mem) (xs : List Int) :
    (m.allocPayload xs).2.counters = m.counters := rfl

theorem Mem.getCounter_live {m : Mem} {c : Nat} {v : Int}
    (h : m.getCounter c = some v) : c < m.counters.length := by
  by_contra hc
  have : m.counters[c]? = none := List.getElem?_eq_none (Nat.le_of_not_lt hc)
  simp [Mem.getCounter, this] at h

theorem Mem.getPayload_live {m : Mem} {p : Nat} {xs : List Int}
    (h : m.getPayload p = some xs) : p < m.payloads.length := by
  by_contra hp
  have : m.payloads[p]? = none := List.getElem?_eq_none (Nat.le_of_not_lt hp)
  simp [Mem.getPayload, this] at h

theorem Mem.getCounter_setCounter_self (m : Mem) (c : Nat) (v : Int)
    (h : c < m.counters.length) : (m.setCounter c v).getCounter c = some v := by
  simp [Mem.getCounter, Mem.setCounter, List.getElem?_set_eq h]

theorem Mem.getCounter_setCounter_ne (m : Mem) {c c' : Nat} (v : Int)
    (h : c ≠ c') : (m.setCounter c v).getCounter c' = m.getCounter c' := by
  simp [Mem.getCounter, Mem.setCounter, List.getElem?_set_ne h]

theorem Mem.getPayload_setPayload_self (m : Mem) (p : Nat) (xs : List Int)
    (h : p < m.payloads.length) : (m.setPayload p xs).getPayload p = some xs := by
  simp [Mem.getPayload, Mem.setPayload, List.getElem?_set_eq h]

theorem Mem.getPayload_setPayload_ne (m : Mem) {p p' : Nat} (xs : List Int)
    (h : p ≠ p') : (m.setPayload p xs).getPayload p' = m.getPayload p' := by
  simp [Mem.getPayload, Mem.setPayload, List.getElem?_set_ne h]

theorem Mem.getCounter_freeCounter_self (m : Mem) (c : Nat)
    (h : c < m.counters.length) : (m.freeCounter c).getCounter c = none := by
  simp [Mem.getCounter, Mem.freeCounter, List.getElem?_set_eq h]

theorem Mem.getCounter_freeCounter_ne (m : Mem) {c c' : Nat}
    (h : c ≠ c') : (m.freeCounter c).getCounter c' = m.getCounter c' := by
  simp [Mem.getCounter, Mem.freeCounter, List.getElem?_set_ne h]

theorem Mem.getPayload_freePayload_self (m : Mem) (p : Nat)
    (h : p < m.payloads.length) : (m.freePayload p).getPayload p = none := by
  simp [Mem.getPayload, Mem.freePayload, List.getElem?_set_eq h]

theorem Mem.getPayload_freePayload_ne (m : Mem) {p p' : Nat}
    (h : p ≠ p') : (m.freePayload p).getPayload p' = m.getPayload p' := by
  simp [Mem.getPayload, Mem.freePayload, List.getElem?_set_ne h]

theorem Mem.getCounter_allocCounter_fresh (m : Mem) (v : Int) :
    (m.allocCounter v).2.getCounter (m.allocCounter v).1 = some v := by
  simp [Mem.getCounter, Mem.allocCounter, List.getElem?_concat_length]

theorem Mem.getCounter_allocCounter_old (m : Mem) (v : Int) {c : Nat}
    (h : c < m.counters.length) :
    (m.allocCounter v).2.getCounter c = m.getCounter c := by
  simp [Mem.getCounter, Mem.allocCounter, List.getElem?_append_left h]

theorem Mem.getPayload_allocPayload_fresh (m : Mem) (xs : List Int) :
    (m.allocPayload xs).2.getPayload (m.allocPayload xs).1 = some xs := by
  simp [Mem.getPayload, Mem.allocPayload, List.getElem?_concat_length]

theorem Mem.getPayload_allocPayload_old (m : Mem) (xs : List Int) {p : Nat}
    (h : p < m.payloads.length) :
    (m.allocPayload xs).2.getPayload p = m.getPayload p := by
  simp [Mem.getPayload, Mem.allocPayload, List.getElem?_append_left h]

example :
    (cow_create 3 (fun _ => 7) ⟨[], []⟩).1 = ⟨0, 0⟩ := by decide

/-- Unfolding `cow_ensure_unique` on a handle whose counter exceeds 1: a fresh
payload slot receives the first `ARRAY_SIZE` elements of the old payload, the
old counter is decremented, and a fresh counter of 1 is installed. -/
theorem cow_ensure_unique_shared_eq {arr : cow_array} {m : Mem} {v : Int}
    {xs : List Int} (hc : m.getCounter arr.ref_count = some v) (hv : 1 < v)
    (hp : m.getPayload arr.data = some xs) (hlen : ARRAY_SIZE ≤ xs.length) :
    cow_ensure_unique arr m =
      some (⟨m.payloads.length, m.counters.length⟩,
        ⟨m.payloads ++ [some (xs.take ARRAY_SIZE)],
         (m.counters.set arr.ref_count (some (v - 1))) ++ [some 1]⟩) := by
  simp [cow_ensure_unique, hc, hv, hp, hlen, Mem.allocPayload, Mem.setCounter,
    Mem.allocCounter]

/-- Unfolding `cow_ensure_unique` on a handle whose counter does not exceed 1:
a no-op. -/
theorem cow_ensure_unique_exclusive_eq {arr : cow_array} {m : Mem} {v : Int}
    (hc : m.getCounter arr.ref_count = some v) (hv : ¬ 1 < v) :
    cow_ensure_unique arr m = some (arr, m) := by
  simp [cow_ensure_unique, hc, hv]

/-- C3: `cow_copy` allocates no new payload (the payload table is untouched),
increments the shared counter by exactly 1, returns a handle referencing the
same payload slot, and afterwards a read of any index through either handle
(the returned handle equals the source handle) yields the identical,
unchanged value. -/
theorem cow_copy_cheap (arr : cow_array) (m : Mem) (v : Int)
    (h : m.getCounter arr.ref_count = some v) :
    ∃ m', cow_copy arr m = some (arr, m')
      ∧ m'.payloads = m.payloads
      ∧ m'.getCounter arr.ref_count = some (v + 1)
      ∧ ∀ i, cow_read arr i m' = cow_read arr i m := by
  refine ⟨m.setCounter arr.ref_count (v + 1), ?_, rfl, ?_, ?_⟩
  · simp [cow_copy, h]
  · exact m.getCounter_setCounter_self _ _ (Mem.getCounter_live h)
  · intro i
    simp [cow_read]

/-- Witness for C3 at a concrete shared buffer. -/
theorem cow_copy_cheap_witness :
    (Mem.getCounter ⟨[some [4, 5]], [some 1]⟩ 0 = some 1) ∧
    ∃ m', cow_copy ⟨0, 0⟩ ⟨[some [4, 5]], [some 1]⟩ = some (⟨0, 0⟩, m')
      ∧ m'.payloads = [some [4, 5]]
      ∧ m'.getCounter 0 = some 2
      ∧ ∀ i, cow_read ⟨0, 0⟩ i m' = cow_read ⟨0, 0⟩ i ⟨[some [4, 5]], [some 1]⟩ :=
  ⟨by decide, cow_copy_cheap ⟨0, 0⟩ ⟨[some [4, 5]], [some 1]⟩ 1 (by decide)⟩

example :
    cow_copy ⟨0, 0⟩ ⟨[some [1, 2]], [some 1]⟩ =
      some (⟨0, 0⟩, ⟨[some [1, 2]], [some 2]⟩) := by decide

example :
    cow_free ⟨0, 0⟩ ⟨[some [1, 2]], [some 1]⟩ = some ⟨[none], [none]⟩ := by
  decide

/-- C2: fork isolation.  With `k ≥ 2` handles sharing one payload (shared
counter `k`), running `cow_ensure_unique` on one handle and then writing
through it succeeds, installs a genuinely fresh payload, changes no value
observable through any other handle (they all read the untouched original
payload), and leaves the original shared counter at exactly `k - 1`; the
written value is visible through the forked handle. -/
theorem cow_fork_isolation (p c : Nat) (m : Mem) (k : Int) (xs : List Int)
    (i : Nat) (w : Int)
    (hc : m.getCounter c = some k) (hk : 2 ≤ k)
    (hp : m.getPayload p = some xs) (hlen : ARRAY_SIZE ≤ xs.length)
    (hi : i < ARRAY_SIZE) :
    ∃ arr' m1 m2,
      cow_ensure_unique ⟨p, c⟩ m = some (arr', m1)
      ∧ writeIdx arr' i w m1 = some m2
      ∧ arr'.data ≠ p
      ∧ m2.getPayload p = some xs
      ∧ (∀ j, cow_read ⟨p, c⟩ j m2 = cow_read ⟨p, c⟩ j m)
      ∧ m2.getCounter c = some (k - 1)
      ∧ cow_read arr' i m2 = some w := by
  have hv : 1 < k := lt_of_lt_of_le one_lt_two hk
  have hplt : p < m.payloads.length := Mem.getPayload_live hp
  have hclt : c < m.counters.length := Mem.getCounter_live hc
  have heq := @cow_ensure_unique_shared_eq ⟨p, c⟩ m k xs hc hv hp hlen
  set m1 : Mem := ⟨m.payloads ++ [some (xs.take ARRAY_SIZE)],
      (m.counters.set c (some (k - 1))) ++ [some 1]⟩ with hm1
  have hm1p : m1.getPayload m.payloads.length = some (xs.take ARRAY_SIZE) := by
    simp [Mem.getPayload, hm1, List.getElem?_concat_length]
  have htlen : (xs.take ARRAY_SIZE).length = ARRAY_SIZE := by
    simp [List.length_take, Nat.min_eq_left hlen]
  refine ⟨⟨m.payloads.length, m.counters.length⟩, m1,
    m1.setPayload m.payloads.length ((xs.take ARRAY_SIZE).set i w), heq, ?_,
    Nat.ne_of_gt hplt, ?_, ?_, ?_, ?_⟩
  · simp [writeIdx, hm1p, htlen, hi]
  · rw [Mem.getPayload_setPayload_ne _ _ (Nat.ne_of_gt hplt)]
    simp [Mem.getPayload, hm1]
    rw [List.getElem?_append_left hplt]
    simpa [Mem.getPayload] using hp
  · intro j
    have hup : (m1.setPayload m.payloads.length
        ((xs.take ARRAY_SIZE).set i w)).getPayload p = some xs := by
      rw [Mem.getPayload_setPayload_ne _ _ (Nat.ne_of_gt hplt)]
      simp [Mem.getPayload, hm1]
      rw [List.getElem?_append_left hplt]
      simpa [Mem.getPayload] using hp
    simp [cow_read, hup, hp]
  · rw [Mem.getCounter_setPayload]
    simp only [Mem.getCounter, hm1]
    rw [List.getElem?_append_left (by simpa using hclt)]
    simp [List.getElem?_set_eq hclt]
  · have : (m1.setPayload m.payloads.length
        ((xs.take ARRAY_SIZE).set i w)).getPayload m.payloads.length =
        some ((xs.take ARRAY_SIZE).set i w) := by
      apply Mem.getPayload_setPayload_self
      simp [hm1]
    simp [cow_read, this]
    rw [List.getElem?_set_eq (by simpa [htlen] using hi)]

/-- Witness for C2: a size-`ARRAY_SIZE` buffer shared by two handles, forking
handle 2 and writing 99 at index 0. -/
theorem cow_fork_isolation_witness :
    (Mem.getCounter ⟨[some (List.replicate ARRAY_SIZE 0)], [some 2]⟩ 0 = some 2)
    ∧ ((2 : Int) ≤ 2)
    ∧ (Mem.getPayload ⟨[some (List.replicate ARRAY_SIZE 0)], [some 2]⟩ 0 =
        some (List.replicate ARRAY_SIZE 0))
    ∧ (ARRAY_SIZE ≤ (List.replicate ARRAY_SIZE (0 : Int)).length)
    ∧ (0 < ARRAY_SIZE)
    ∧ (∃ arr' m1 m2,
        cow_ensure_unique ⟨0, 0⟩ ⟨[some (List.replicate ARRAY_SIZE 0)], [some 2]⟩
          = some (arr', m1)
        ∧ writeIdx arr' 0 99 m1 = some m2
        ∧ arr'.data ≠ 0
        ∧ m2.getPayload 0 = some (List.replicate ARRAY_SIZE 0)
        ∧ (∀ j, cow_read ⟨0, 0⟩ j m2 =
            cow_read ⟨0, 0⟩ j ⟨[some (List.replicate ARRAY_SIZE 0)], [some 2]⟩)
        ∧ m2.getCounter 0 = some (2 - 1)
        ∧ cow_read arr' 0 m2 = some 99) :=
  ⟨rfl, by decide, rfl, by simp, by decide,
    cow_fork_isolation 0 0 ⟨[some (List.replicate ARRAY_SIZE 0)], [some 2]⟩ 2
      (List.replicate ARRAY_SIZE 0) 0 99 rfl (by decide) rfl (by simp) (by decide)⟩

/-- C5: fork idempotence.  On a live handle, `cow_ensure_unique` succeeds;
calling it a second time with no intervening `cow_copy` is a no-op returning
the same handle and memory; across both calls exactly one payload block is
allocated when the handle was shared and none when it was already exclusive;
and on a handle with counter 1 the first call itself is a true no-op with no
side effect at all. -/
theorem cow_ensure_unique_idem (arr : cow_array) (m : Mem) (v : Int)
    (xs : List Int)
    (hc : m.getCounter arr.ref_count = some v) (hv : 1 ≤ v)
    (hp : m.getPayload arr.data = some xs) (hlen : ARRAY_SIZE ≤ xs.length) :
    ∃ arr1 m1, cow_ensure_unique arr m = some (arr1, m1)
      ∧ cow_ensure_unique arr1 m1 = some (arr1, m1)
      ∧ m1.payloads.length = m.payloads.length + (if 1 < v then 1 else 0)
      ∧ (v = 1 → arr1 = arr ∧ m1 = m) := by
  by_cases h1 : 1 < v
  · have heq := cow_ensure_unique_shared_eq hc h1 hp hlen
    refine ⟨⟨m.payloads.length, m.counters.length⟩,
      ⟨m.payloads ++ [some (xs.take ARRAY_SIZE)],
        (m.counters.set arr.ref_count (some (v - 1))) ++ [some 1]⟩,
      heq, ?_, by simp [h1], fun hv1 => absurd hv1 (by omega)⟩
    have hfresh : (⟨m.payloads ++ [some (xs.take ARRAY_SIZE)],
        (m.counters.set arr.ref_count (some (v - 1))) ++ [some 1]⟩ : Mem).getCounter
          m.counters.length = some 1 := by
      show (((m.counters.set arr.ref_count (some (v - 1))) ++
        [some 1])[m.counters.length]?).bind id = some 1
      rw [← List.length_set m.counters arr.ref_count (some (v - 1)),
        List.getElem?_concat_length]
      rfl
    exact cow_ensure_unique_exclusive_eq hfresh (by omega)
  · have heq := cow_ensure_unique_exclusive_eq hc h1
    exact ⟨arr, m, heq, heq, by simp [h1], fun _ => ⟨rfl, rfl⟩⟩

/-- Witness for C5 on a shared handle (counter 2) and, inside the same
instantiation, the exclusive no-op clause. -/
theorem cow_ensure_unique_idem_witness :
    (Mem.getCounter ⟨[some (List.replicate ARRAY_SIZE 0)], [some 2]⟩ 0 = some 2)
    ∧ ((1 : Int) ≤ 2)
    ∧ (Mem.getPayload ⟨[some (List.replicate ARRAY_SIZE 0)], [some 2]⟩ 0 =
        some (List.replicate ARRAY_SIZE 0))
    ∧ (ARRAY_SIZE ≤ (List.replicate ARRAY_SIZE (0 : Int)).length)
    ∧ (∃ arr1 m1,
        cow_ensure_unique ⟨0, 0⟩ ⟨[some (List.replicate ARRAY_SIZE 0)], [some 2]⟩
          = some (arr1, m1)
        ∧ cow_ensure_unique arr1 m1 = some (arr1, m1)
        ∧ m1.payloads.length =
            (⟨[some (List.replicate ARRAY_SIZE 0)], [some 2]⟩ : Mem).payloads.length
              + (if (1 : Int) < 2 then 1 else 0)
        ∧ ((2 : Int) = 1 → arr1 = ⟨0, 0⟩
            ∧ m1 = ⟨[some (List.replicate ARRAY_SIZE 0)], [some 2]⟩)) :=
  ⟨rfl, by decide, rfl, by simp,
    cow_ensure_unique_idem ⟨0, 0⟩ ⟨[some (List.replicate ARRAY_SIZE 0)], [some 2]⟩
      2 (List.replicate ARRAY_SIZE 0) rfl (by decide) rfl (by simp)⟩

/-! Reference accounting over arbitrary share/release traces (claim C1).
`cow_copy` hands back a structurally identical handle (same two pointers), so
every handle obtained by sharing from one `cow_create` is the same `cow_array`
value; a trace is a list of share/release events against that handle. -/

/-- One event of a sharing trace: `share` is `cow_copy`, `release` is
`cow_free`. -/
inductive CowOp
  | share
  | release
deriving DecidableEq, Repr

/-- Run a trace of share/release events on handle `arr`; `none` as soon as an
event hits undefined behaviour (e.g. touching freed storage). -/
def runOps (arr : cow_array) : List CowOp → Mem → Option Mem
  | [], m => some m
  | CowOp.share :: rest, m =>
    match cow_copy arr m with
    | none => none
    | some (_, m') => runOps arr rest m'
  | CowOp.release :: rest, m =>
    match cow_free arr m with
    | none => none
    | some m' => runOps arr rest m'

/-- Number of live handles after a trace, starting from `n` live handles. -/
def liveAfter : Nat → List CowOp → Nat
  | n, [] => n
  | n, CowOp.share :: rest => liveAfter (n + 1) rest
  | n, CowOp.release :: rest => liveAfter (n - 1) rest

/-- A trace is well formed from `n` live handles when every event happens
while at least one handle is live (outstanding releases never outnumber
handles). -/
def wfTrace : Nat → List CowOp → Bool
  | _, [] => true
  | n, CowOp.share :: rest => decide (1 ≤ n) && wfTrace (n + 1) rest
  | n, CowOp.release :: rest => decide (1 ≤ n) && wfTrace (n - 1) rest

/-- Invariant preservation along a well-formed trace: with `n ≥ 1` live
handles the counter holds exactly `n` and the payload is allocated; when the
trace ends with no live handle, both slots have been freed. -/
theorem runOps_accounting (arr : cow_array) :
    ∀ (ops : List CowOp) (n : Nat) (m : Mem), 1 ≤ n →
    wfTrace n ops = true →
    m.getCounter arr.ref_count = some (n : Int) →
    (∃ xs, m.getPayload arr.data = some xs) →
    ∃ m', runOps arr ops m = some m'
      ∧ (1 ≤ liveAfter n ops →
          m'.getCounter arr.ref_count = some ((liveAfter n ops : Nat) : Int)
          ∧ ∃ xs, m'.getPayload arr.data = some xs)
      ∧ (liveAfter n ops = 0 →
          m'.counters[arr.ref_count]? = some none
          ∧ m'.payloads[arr.data]? = some none) := by
  intro ops
  induction ops with
  | nil =>
    intro n m hn _ hc hp
    exact ⟨m, rfl, fun _ => ⟨hc, hp⟩,
      fun h0 => absurd hn (by simp [liveAfter] at h0; omega)⟩
  | cons op rest ih =>
    intro n m hn hwf hc hp
    cases op with
    | share =>
      have hwf' : wfTrace (n + 1) rest = true := by
        simp [wfTrace] at hwf; exact hwf.2
      have hclt : arr.ref_count < m.counters.length := Mem.getCounter_live hc
      have hstep : cow_copy arr m =
          some (arr, m.setCounter arr.ref_count ((n : Int) + 1)) := by
        simp [cow_copy, hc]
      have hc' : (m.setCounter arr.ref_count ((n : Int) + 1)).getCounter
          arr.ref_count = some ((n + 1 : Nat) : Int) := by
        rw [Mem.getCounter_setCounter_self _ _ _ hclt]; push_cast; ring_nf
      have hp' : ∃ xs, (m.setCounter arr.ref_count ((n : Int) + 1)).getPayload
          arr.data = some xs := by simpa using hp
      obtain ⟨m', hrun, hlive, hdead⟩ :=
        ih (n + 1) _ (by omega) hwf' hc' hp'
      exact ⟨m', by simp [runOps, hstep, hrun], hlive, hdead⟩
    | release =>
      have hwf' : wfTrace (n - 1) rest = true := by
        simp [wfTrace] at hwf; exact hwf.2
      have hclt : arr.ref_count < m.counters.length := Mem.getCounter_live hc
      obtain ⟨xs, hpx⟩ := hp
      have hplt : arr.data < m.payloads.length := Mem.getPayload_live hpx
      by_cases h1 : n = 1
      · subst h1
        have hrest : rest = [] := by
          cases rest with
          | nil => rfl
          | cons op' rest' => cases op' <;> simp [wfTrace] at hwf'
        subst hrest
        have hstep : cow_free arr m =
            some (((m.setCounter arr.ref_count 0).freePayload
              arr.data).freeCounter arr.ref_count) := by
          simp [cow_free, hc, hpx]
        refine ⟨((m.setCounter arr.ref_count 0).freePayload
            arr.data).freeCounter arr.ref_count,
          by simp [runOps, hstep],
          fun h => absurd h (by simp [liveAfter]), fun _ => ⟨?_, ?_⟩⟩
        · show (((m.setCounter arr.ref_count 0).freePayload
            arr.data).freeCounter arr.ref_count).counters[arr.ref_count]? = some none
          simp [Mem.freeCounter, Mem.freePayload, Mem.setCounter]
          rw [List.getElem?_set_eq (by simpa using hclt)]
        · show (((m.setCounter arr.ref_count 0).freePayload
            arr.data).freeCounter arr.ref_count).payloads[arr.data]? = some none
          simp [Mem.freeCounter, Mem.freePayload, Mem.setCounter]
          rw [List.getElem?_set_eq (by simpa using hplt)]
      · have hn2 : 2 ≤ n := by omega
        have hne : ((n : Int) - 1) ≠ 0 := by
          have : (2 : Int) ≤ (n : Int) := by exact_mod_cast hn2
          omega
        have hstep : cow_free arr m =
            some (m.setCounter arr.ref_count ((n : Int) - 1)) := by
          simp [cow_free, hc, hne]
        have hc' : (m.setCounter arr.ref_count ((n : Int) - 1)).getCounter
            arr.ref_count = some ((n - 1 : Nat) : Int) := by
          rw [Mem.getCounter_setCounter_self _ _ _ hclt]
          congr 1
          push_cast [Nat.cast_sub (by omega : 1 ≤ n)]
          ring
        have hp' : ∃ ys, (m.setCounter arr.ref_count ((n : Int) - 1)).getPayload
            arr.data = some ys := ⟨xs, by simpa using hpx⟩
        obtain ⟨m', hrun, hlive, hdead⟩ :=
          ih (n - 1) _ (by omega) hwf' hc' hp'
        exact ⟨m', by simp [runOps, hstep, hrun], hlive, hdead⟩

/-- C1: reference accounting.  For every well-formed sequence of share
(`cow_copy`) and release (`cow_free`) events starting from one `cow_create`,
the run hits no undefined behaviour (in particular no double free); while at
least one handle is outstanding the shared counter equals the number of live
handles (hence stays at least 1) and the payload is still allocated — never
deallocated early; and exactly when the last handle is released, the payload
and its counter are both freed.  Since a well-formed trace can reach zero live
handles only at its final event, the deallocation happens exactly once. -/
theorem cow_refcount_lifecycle (size : Nat) (junk : Nat → Int) (m0 : Mem)
    (ops : List CowOp) (hwf : wfTrace 1 ops = true) :
    ∃ m', runOps (cow_create size junk m0).1 ops (cow_create size junk m0).2
        = some m'
      ∧ (1 ≤ liveAfter 1 ops →
          m'.getCounter (cow_create size junk m0).1.ref_count
            = some ((liveAfter 1 ops : Nat) : Int)
          ∧ ∃ xs, m'.getPayload (cow_create size junk m0).1.data = some xs)
      ∧ (liveAfter 1 ops = 0 →
          m'.counters[(cow_create size junk m0).1.ref_count]? = some none
          ∧ m'.payloads[(cow_create size junk m0).1.data]? = some none) := by
  apply runOps_accounting _ ops 1 _ (by omega) hwf
  · show ((m0.allocPayload ((List.range size).map junk)).2.allocCounter 1).2.getCounter
      (m0.allocPayload ((List.range size).map junk)).2.counters.length = some (1 : Int)
    exact Mem.getCounter_allocCounter_fresh _ _
  · refine ⟨(List.range size).map junk, ?_⟩
    show ((m0.allocPayload ((List.range size).map junk)).2.allocCounter 1).2.getPayload
      m0.payloads.length = some ((List.range size).map junk)
    rw [Mem.getPayload_allocCounter]
    exact Mem.getPayload_allocPayload_fresh _ _

/-- Witness for C1: create, one share, then two releases. -/
theorem cow_refcount_lifecycle_witness :
    (wfTrace 1 [CowOp.share, CowOp.release, CowOp.release] = true)
    ∧ (∃ m', runOps (cow_create 2 (fun _ => 0) ⟨[], []⟩).1
          [CowOp.share, CowOp.release, CowOp.release]
          (cow_create 2 (fun _ => 0) ⟨[], []⟩).2 = some m'
      ∧ (1 ≤ liveAfter 1 [CowOp.share, CowOp.release, CowOp.release] →
          m'.getCounter (cow_create 2 (fun _ => 0) ⟨[], []⟩).1.ref_count
            = some ((liveAfter 1 [CowOp.share, CowOp.release, CowOp.release] : Nat) : Int)
          ∧ ∃ xs, m'.getPayload (cow_create 2 (fun _ => 0) ⟨[], []⟩).1.data = some xs)
      ∧ (liveAfter 1 [CowOp.share, CowOp.release, CowOp.release] = 0 →
          m'.counters[(cow_create 2 (fun _ => 0) ⟨[], []⟩).1.ref_count]? = some none
          ∧ m'.payloads[(cow_create 2 (fun _ => 0) ⟨[], []⟩).1.data]? = some none)) :=
  ⟨by decide, cow_refcount_lifecycle 2 (fun _ => 0) ⟨[], []⟩
    [CowOp.share, CowOp.release, CowOp.release] (by decide)⟩

/-! The container/layer storage model of `containerStorage.c`. -/

/-- `struct Layer` (`containerStorage.c`, lines 9-13). -/
structure Layer where
  id : String
  size_mb : Nat
  content_hash : String
deriving DecidableEq, Repr

/-- `create_ubuntu_layer()` (`containerStorage.c`, lines 28-34): the 120 MB
base layer. -/
def create_ubuntu_layer : Layer :=
  ⟨"ubuntu:latest", 120, "sha256:ubuntu-base-layer"⟩

/-- `create_container_layer(int container_id)` (`containerStorage.c`, lines
41-47): a 3 MB container-specific layer. -/
def create_container_layer (container_id : Nat) : Layer :=
  ⟨"container-" ++ toString container_id ++ "-layer", 3,
   "sha256:container-" ++ toString container_id ++ "-unique"⟩

/-- `struct Container` (`containerStorage.c`, lines 18-22); `layer_count` is
the length of `layers`. -/
structure Container where
  id : String
  layers : List Layer
deriving DecidableEq, Repr

/-- `create_containers_no_cow` (`containerStorage.c`, lines 54-63): each
container gets `layer_count = 1` — a private copy of the Ubuntu base layer
and nothing else. -/
def create_containers_no_cow (count : Nat) : List Container :=
  (List.range count).map fun i =>
    ⟨"container-" ++ toString (i + 1), [create_ubuntu_layer]⟩

/-- `create_containers_cow` (`containerStorage.c`, lines 71-82): each
container gets `layer_count = 2` — the shared Ubuntu base layer and its own
container layer. -/
def create_containers_cow (count : Nat) (shared_ubuntu : Layer) : List Container :=
  (List.range count).map fun i =>
    ⟨"container-" ++ toString (i + 1), [shared_ubuntu, create_container_layer (i + 1)]⟩

/-- `calculate_storage_no_cow` (`containerStorage.c`, lines 90-98): sum of
every layer of every container, with no deduplication. -/
def calculate_storage_no_cow (containers : List Container) : Nat :=
  (containers.map fun c => (c.layers.map Layer.size_mb).sum).sum

/-- `calculate_storage_cow` (`containerStorage.c`, lines 107-117): the shared
base is counted once; the inner loop starts at `j = 1`, adding only non-base
layers. -/
def calculate_storage_cow (containers : List Container) (shared_ubuntu : Layer) : Nat :=
  shared_ubuntu.size_mb +
    (containers.map fun c => ((c.layers.drop 1).map Layer.size_mb).sum).sum

/-- C6 counterexample: the naive per-entity summation the program actually
performs — `calculate_storage_no_cow` over the containers built by
`create_containers_no_cow` (whose only layer is the full base copy) — returns
`N*B = 1200` at `N = 10`, not the claimed `N*(B+L) = 1230`. -/
theorem storage_no_cow_not_1230 :
    calculate_storage_no_cow (create_containers_no_cow 10) = 1200
    ∧ (1200 : Nat) ≠ 1230 := by decide

/-- C6 amended: for one base of size `B` shared by `N` entities, each with
one exclusive 3 MB layer, `calculate_storage_cow` returns `B + N*3` (150 at
`N = 10`, `B = 120`); summing the COW containers naively without base
deduplication (`calculate_storage_no_cow` on the COW containers) would give
`N*(B+L) = 1230`; but the program's naive path sums the containers built by
`create_containers_no_cow`, which hold only the full base copy and no unique
layer, so it returns `N*B = 1200`. -/
theorem storage_accounting_amended :
    (∀ (count : Nat) (base : Layer),
      calculate_storage_cow (create_containers_cow count base) base
        = base.size_mb + count * 3)
    ∧ calculate_storage_cow (create_containers_cow 10 create_ubuntu_layer)
        create_ubuntu_layer = 150
    ∧ calculate_storage_no_cow (create_containers_cow 10 create_ubuntu_layer) = 1230
    ∧ calculate_storage_no_cow (create_containers_no_cow 10) = 1200 := by
  refine ⟨fun count base => ?_, by decide, by decide, by decide⟩
  simp only [calculate_storage_cow, create_containers_cow, List.map_map]
  have h : ∀ n : Nat, ((List.range n).map
      ((fun c : Container => ((c.layers.drop 1).map Layer.size_mb).sum) ∘
        fun i => ⟨"container-" ++ toString (i + 1),
          [base, create_container_layer (i + 1)]⟩)).sum = n * 3 := by
    intro n
    induction n with
    | zero => simp
    | succ k ihk =>
      rw [List.range_succ, List.map_append, List.sum_append, ihk]
      simp [create_container_layer, Nat.succ_mul]
  rw [h count]

/-! Allocation-failure model (claims C7 and C8).  C `malloc` may return NULL;
neither `cow_create` nor `cow_ensure_unique` checks for it.  A handle field
holding a possibly-null pointer is an `Option Nat`; `Except.error` carries the
handle and memory at the moment a null pointer is dereferenced (a crash). -/

/-- A `cow_array` whose pointers may be NULL, as returned by unchecked
`malloc`. -/
structure cow_arrayF where
  data : Option Nat
  ref_count : Option Nat
deriving DecidableEq, Repr

/-- `cow_create` with explicit allocation outcomes: `dOk`/`cOk` say whether
the payload/counter `malloc` succeeds.  On payload failure the struct simply
carries a null `data` pointer — there is no check in the source; on counter
failure the store `*(arr.ref_count) = 1` dereferences null and the program
crashes with the state carried in the error. -/
def cow_createF (dOk cOk : Bool) (size : Nat) (junk : Nat → Int) (m : Mem) :
    Except (cow_arrayF × Mem) (cow_arrayF × Mem) :=
  let (dp, m1) :=
    if dOk then
      (some (m.allocPayload ((List.range size).map junk)).1,
        (m.allocPayload ((List.range size).map junk)).2)
    else ((none : Option Nat), m)
  if cOk then
    Except.ok (⟨dp, some (m1.allocCounter 1).1⟩, (m1.allocCounter 1).2)
  else
    Except.error (⟨dp, none⟩, m1)

/-- `cow_ensure_unique` with explicit allocation outcomes for a live handle.
In the shared branch the source first overwrites `arr->data` with the result
of `malloc`; when that result is NULL, the `memcpy` into it crashes with the
handle's data pointer already lost.  When the counter `malloc` fails, the old
counter has already been decremented before `*(arr->ref_count) = 1`
crashes. -/
def cow_ensure_uniqueF (dOk cOk : Bool) (arr : cow_array) (m : Mem) :
    Except (cow_arrayF × Mem) (cow_arrayF × Mem) :=
  match m.getCounter arr.ref_count with
  | none => Except.error (⟨some arr.data, some arr.ref_count⟩, m)
  | some v =>
    if 1 < v then
      match m.getPayload arr.data with
      | none => Except.error (⟨some arr.data, some arr.ref_count⟩, m)
      | some old =>
        if dOk then
          if ARRAY_SIZE ≤ old.length then
            let (d, m1) := m.allocPayload (old.take ARRAY_SIZE)
            let m2 := m1.setCounter arr.ref_count (v - 1)
            if cOk then
              let (c, m3) := m2.allocCounter 1
              Except.ok (⟨some d, some c⟩, m3)
            else Except.error (⟨some d, none⟩, m2)
          else
            Except.error (⟨some (m.allocPayload (old.take ARRAY_SIZE)).1,
              some arr.ref_count⟩, (m.allocPayload (old.take ARRAY_SIZE)).2)
        else Except.error (⟨none, some arr.ref_count⟩, m)
    else Except.ok (⟨some arr.data, some arr.ref_count⟩, m)

/-- C7 counterexample: when the payload `malloc` fails, `cow_create` does not
fail with an allocation error — it returns normally, handing the caller a
half-constructed handle whose `data` pointer is null (the counter was still
allocated and set to 1). -/
theorem cow_create_returns_partial_object :
    cow_createF false true 3 (fun _ => 0) ⟨[], []⟩
      = Except.ok (⟨none, some 0⟩, ⟨[], [some 1]⟩)
    ∧ (⟨none, some 0⟩ : cow_arrayF).data = none := ⟨rfl, rfl⟩

/-- C7 amended: `cow_create` allocates a payload of exactly `size` elements
and a counter set to 1, but performs no allocation-failure check: when both
allocations succeed the handle is complete; when the payload allocation fails
it still returns normally with a partial handle whose `data` pointer is null
(the caller — `benchmark_cow` — must check it); when the counter allocation
fails, the initializing store dereferences a null pointer and the program
crashes. -/
theorem cow_create_behavior (size : Nat) (junk : Nat → Int) (m : Mem) :
    (∃ d c m', cow_createF true true size junk m = Except.ok (⟨some d, some c⟩, m')
      ∧ m'.getPayload d = some ((List.range size).map junk)
      ∧ ((List.range size).map junk).length = size
      ∧ m'.getCounter c = some 1)
    ∧ cow_createF false true size junk m
        = Except.ok (⟨none, some (m.allocCounter 1).1⟩, (m.allocCounter 1).2)
    ∧ (∀ dOk, ∃ st, cow_createF dOk false size junk m = Except.error st) := by
  refine ⟨⟨(m.allocPayload ((List.range size).map junk)).1,
      ((m.allocPayload ((List.range size).map junk)).2.allocCounter 1).1,
      ((m.allocPayload ((List.range size).map junk)).2.allocCounter 1).2,
      by simp [cow_createF], ?_, by simp, ?_⟩, by simp [cow_createF], ?_⟩
  · rw [Mem.getPayload_allocCounter]
    exact Mem.getPayload_allocPayload_fresh _ _
  · exact Mem.getCounter_allocCounter_fresh _ _
  · intro dOk
    cases dOk
    · exact ⟨(⟨none, none⟩, m), by simp [cow_createF]⟩
    · exact ⟨(⟨some (m.allocPayload ((List.range size).map junk)).1, none⟩,
        (m.allocPayload ((List.range size).map junk)).2), by simp [cow_createF]⟩

/-- C8 counterexample: a shared handle (counter 2, payload `[7]` at slot 0)
whose fork hits a failed payload allocation.  The call does not leave the
handle as it was: it crashes with the handle's `data` pointer already
overwritten by the null `malloc` result, so the prior payload pointer
(slot 0) is lost. -/
theorem cow_fork_failure_clobbers_handle :
    cow_ensure_uniqueF false true ⟨0, 0⟩ ⟨[some [7]], [some 2]⟩
      = Except.error (⟨none, some 0⟩, ⟨[some [7]], [some 2]⟩)
    ∧ (⟨none, some 0⟩ : cow_arrayF).data ≠ some 0 := ⟨rfl, by decide⟩

/-- C8 amended: duplication is all-or-nothing only when both allocations
succeed — then the calling handle atomically receives a complete private copy
with a fresh counter of 1 and the old counter drops by 1.  When the payload
allocation fails, the handle's `data` pointer has already been overwritten
with null when the copy crashes (memory itself still unchanged), so the
handle's prior state is not preserved; when the counter allocation fails, the
old counter has already been decremented at the crash. -/
theorem cow_fork_failure_behavior (arr : cow_array) (m : Mem) (v : Int)
    (xs : List Int)
    (hc : m.getCounter arr.ref_count = some v) (hv : 1 < v)
    (hp : m.getPayload arr.data = some xs) (hlen : ARRAY_SIZE ≤ xs.length) :
    (∃ d c m', cow_ensure_uniqueF true true arr m = Except.ok (⟨some d, some c⟩, m')
      ∧ m'.getPayload d = some (xs.take ARRAY_SIZE)
      ∧ m'.getCounter c = some 1
      ∧ m'.getCounter arr.ref_count = some (v - 1))
    ∧ cow_ensure_uniqueF false true arr m
        = Except.error (⟨none, some arr.ref_count⟩, m)
    ∧ cow_ensure_uniqueF true false arr m
        = Except.error (⟨some (m.allocPayload (xs.take ARRAY_SIZE)).1, none⟩,
            ((m.allocPayload (xs.take ARRAY_SIZE)).2.setCounter arr.ref_count (v - 1))) := by
  have hclt : arr.ref_count < m.counters.length := Mem.getCounter_live hc
  refine ⟨⟨(m.allocPayload (xs.take ARRAY_SIZE)).1,
      (((m.allocPayload (xs.take ARRAY_SIZE)).2.setCounter arr.ref_count
        (v - 1)).allocCounter 1).1,
      (((m.allocPayload (xs.take ARRAY_SIZE)).2.setCounter arr.ref_count
        (v - 1)).allocCounter 1).2,
      by simp [cow_ensure_uniqueF, hc, hv, hp, hlen], ?_, ?_, ?_⟩,
    by simp [cow_ensure_uniqueF, hc, hv, hp, hlen],
    by simp [cow_ensure_uniqueF, hc, hv, hp, hlen]⟩
  · rw [Mem.getPayload_allocCounter, Mem.getPayload_setCounter]
    exact Mem.getPayload_allocPayload_fresh _ _
  · exact Mem.getCounter_allocCounter_fresh _ _
  · have hl1 : arr.ref_count < ((m.allocPayload
        (xs.take ARRAY_SIZE)).2.setCounter arr.ref_count (v - 1)).counters.length := by
      simpa [Mem.setCounter, Mem.allocPayload] using hclt
    rw [Mem.getCounter_allocCounter_old _ _ hl1]
    exact Mem.getCounter_setCounter_self _ _ _ (by simpa using hclt)

/-- Witness for C8's amended theorem at a concrete shared buffer. -/
theorem cow_fork_failure_behavior_witness :
    (Mem.getCounter ⟨[some (List.replicate ARRAY_SIZE 0)], [some 2]⟩ 0 = some 2)
    ∧ ((1 : Int) < 2)
    ∧ (Mem.getPayload ⟨[some (List.replicate ARRAY_SIZE 0)], [some 2]⟩ 0 =
        some (List.replicate ARRAY_SIZE 0))
    ∧ (ARRAY_SIZE ≤ (List.replicate ARRAY_SIZE (0 : Int)).length)
    ∧ ((∃ d c m', cow_ensure_uniqueF true true ⟨0, 0⟩
          ⟨[some (List.replicate ARRAY_SIZE 0)], [some 2]⟩
          = Except.ok (⟨some d, some c⟩, m')
        ∧ m'.getPayload d = some ((List.replicate ARRAY_SIZE 0).take ARRAY_SIZE)
        ∧ m'.getCounter c = some 1
        ∧ m'.getCounter 0 = some (2 - 1))
      ∧ cow_ensure_uniqueF false true ⟨0, 0⟩
          ⟨[some (List.replicate ARRAY_SIZE 0)], [some 2]⟩
          = Except.error (⟨none, some 0⟩,
              ⟨[some (List.replicate ARRAY_SIZE 0)], [some 2]⟩)
      ∧ cow_ensure_uniqueF true false ⟨0, 0⟩
          ⟨[some (List.replicate ARRAY_SIZE 0)], [some 2]⟩
          = Except.error (⟨some ((⟨[some (List.replicate ARRAY_SIZE 0)], [some 2]⟩ : Mem).allocPayload
                ((List.replicate ARRAY_SIZE 0).take ARRAY_SIZE)).1, none⟩,
              (((⟨[some (List.replicate ARRAY_SIZE 0)], [some 2]⟩ : Mem).allocPayload
                ((List.replicate ARRAY_SIZE 0).take ARRAY_SIZE)).2.setCounter 0 (2 - 1)))) :=
  ⟨rfl, by decide, rfl, by simp,
    cow_fork_failure_behavior ⟨0, 0⟩ ⟨[some (List.replicate ARRAY_SIZE 0)], [some 2]⟩
      2 (List.replicate ARRAY_SIZE 0) rfl (by decide) rfl (by simp)⟩

/-! Bounds-checked accessors (claim C9).  The repository exposes no `read` or
`write` function: the benchmark driver indexes `copies[i].data[index]`
directly, with `index = rand() % ARRAY_SIZE` always in range. -/

/-- The error kinds of spec §7 that a shallow accessor can surface. -/
inductive CowError
  | OutOfRangeAccess
deriving DecidableEq, Repr

/-- Modelled from the spec: the source has no `read(self, index)` function
(the benchmark dereferences `arr.data[index]` raw), so spec §4.1/§7 is
modelled: an index outside `[0, size)` is reported as `OutOfRangeAccess`;
a read never mutates. -/
def cow_read_spec (arr : cow_array) (i : Nat) (m : Mem) :
    Option (Except CowError Int) :=
  match m.getPayload arr.data with
  | none => none
  | some xs =>
    if i < xs.length then some (Except.ok (xs.getD i 0))
    else some (Except.error CowError.OutOfRangeAccess)

/-- Modelled from the spec: the source has no `write(self, index, value)`
function, so spec §4.1/§7 is modelled: an index outside `[0, size)` is
reported as `OutOfRangeAccess` and the memory — counters and every payload —
is returned untouched. -/
def cow_write_spec (arr : cow_array) (i : Nat) (v : Int) (m : Mem) :
    Option (Mem × Option CowError) :=
  match m.getPayload arr.data with
  | none => none
  | some xs =>
    if i < xs.length then some (m.setPayload arr.data (xs.set i v), none)
    else some (m, some CowError.OutOfRangeAccess)

/-- C9: for every handle and every index outside `[0, size)`, the
bounds-checked read and write report `OutOfRangeAccess` to the caller, and
the write hands back the memory state — shared counter and every payload
element — entirely unchanged. -/
theorem out_of_range_access_reported (arr : cow_array) (i : Nat) (v : Int)
    (m : Mem) (xs : List Int)
    (hp : m.getPayload arr.data = some xs) (hi : xs.length ≤ i) :
    cow_read_spec arr i m = some (Except.error CowError.OutOfRangeAccess)
    ∧ cow_write_spec arr i v m = some (m, some CowError.OutOfRangeAccess) := by
  have hni : ¬ i < xs.length := Nat.not_lt.mpr hi
  exact ⟨by simp [cow_read_spec, hp, hni], by simp [cow_write_spec, hp, hni]⟩

/-- Witness for C9: index 5 on a 2-element buffer. -/
theorem out_of_range_access_reported_witness :
    (Mem.getPayload ⟨[some [1, 2]], [some 1]⟩ 0 = some [1, 2])
    ∧ ([(1 : Int), 2].length ≤ 5)
    ∧ (cow_read_spec ⟨0, 0⟩ 5 ⟨[some [1, 2]], [some 1]⟩
        = some (Except.error CowError.OutOfRangeAccess)
      ∧ cow_write_spec ⟨0, 0⟩ 5 9 ⟨[some [1, 2]], [some 1]⟩
        = some (⟨[some [1, 2]], [some 1]⟩, some CowError.OutOfRangeAccess)) :=
  ⟨rfl, by decide,
    out_of_range_access_reported ⟨0, 0⟩ 5 9 ⟨[some [1, 2]], [some 1]⟩ [1, 2]
      rfl (by decide)⟩

/-- C10: the `cow_array` handle records no size, and `cow_ensure_unique` on a
shared handle always copies exactly `ARRAY_SIZE` elements, whatever size the
buffer was created with: whenever the fork completes, the fresh payload holds
`xs.take ARRAY_SIZE` of length exactly `ARRAY_SIZE`; the fork's `memcpy` read
stays in bounds iff the payload has at least `ARRAY_SIZE` elements; and the
fork is fully within bounds — defined, with the handle's payload length
preserved for later accesses — iff the buffer's size is exactly
`ARRAY_SIZE`. -/
theorem cow_fork_fixed_size (arr : cow_array) (m : Mem) (v : Int)
    (xs : List Int)
    (hc : m.getCounter arr.ref_count = some v) (hv : 1 < v)
    (hp : m.getPayload arr.data = some xs) :
    ((cow_ensure_unique arr m).isSome ↔ ARRAY_SIZE ≤ xs.length)
    ∧ (∀ arr' m', cow_ensure_unique arr m = some (arr', m') →
        m'.getPayload arr'.data = some (xs.take ARRAY_SIZE)
        ∧ (xs.take ARRAY_SIZE).length = ARRAY_SIZE)
    ∧ ((∃ arr' m', cow_ensure_unique arr m = some (arr', m')
        ∧ ∀ ys, m'.getPayload arr'.data = some ys → ys.length = xs.length)
       ↔ xs.length = ARRAY_SIZE) := by
  by_cases hlen : ARRAY_SIZE ≤ xs.length
  · have heq := cow_ensure_unique_shared_eq hc hv hp hlen
    have hfresh : (⟨m.payloads ++ [some (xs.take ARRAY_SIZE)],
        (m.counters.set arr.ref_count (some (v - 1))) ++ [some 1]⟩ : Mem).getPayload
          m.payloads.length = some (xs.take ARRAY_SIZE) := by
      show ((m.payloads ++ [some (xs.take ARRAY_SIZE)])[m.payloads.length]?).bind id
        = some (xs.take ARRAY_SIZE)
      rw [List.getElem?_concat_length]; rfl
    have htake : (xs.take ARRAY_SIZE).length = ARRAY_SIZE := by
      simp [List.length_take, Nat.min_eq_left hlen]
    refine ⟨by simp [heq, hlen], ?_, ?_⟩
    · intro arr' m' h
      rw [heq] at h
      obtain ⟨h1, h2⟩ := Prod.mk.injEq _ _ _ _ ▸ Option.some.injEq _ _ ▸ h
      subst h1; subst h2
      exact ⟨hfresh, htake⟩
    · constructor
      · rintro ⟨arr', m', h, hys⟩
        rw [heq] at h
        obtain ⟨h1, h2⟩ := Prod.mk.injEq _ _ _ _ ▸ Option.some.injEq _ _ ▸ h
        subst h1; subst h2
        have := hys _ hfresh
        omega
      · intro hsz
        refine ⟨_, _, heq, ?_⟩
        intro ys hys
        rw [hfresh] at hys
        obtain rfl := Option.some.injEq _ _ ▸ hys
        omega
  · have hnone : cow_ensure_unique arr m = none := by
      simp [cow_ensure_unique, hc, hv, hp, hlen]
    refine ⟨by simp [hnone, hlen], ?_, ?_⟩
    · intro arr' m' h
      rw [hnone] at h
      exact absurd h (by simp)
    · constructor
      · rintro ⟨arr', m', h, -⟩
        rw [hnone] at h
        exact absurd h (by simp)
      · intro hsz
        exact absurd hlen (by omega)

/-- Witness for C10 on a shared buffer of size 4 (the spec's scenario size):
the fork is not within bounds there. -/
theorem cow_fork_fixed_size_witness :
    (Mem.getCounter ⟨[some [0, 1, 2, 3]], [some 2]⟩ 0 = some 2)
    ∧ ((1 : Int) < 2)
    ∧ (Mem.getPayload ⟨[some [0, 1, 2, 3]], [some 2]⟩ 0 = some [0, 1, 2, 3])
    ∧ (((cow_ensure_unique ⟨0, 0⟩ ⟨[some [0, 1, 2, 3]], [some 2]⟩).isSome
        ↔ ARRAY_SIZE ≤ [(0 : Int), 1, 2, 3].length)
      ∧ (∀ arr' m', cow_ensure_unique ⟨0, 0⟩ ⟨[some [0, 1, 2, 3]], [some 2]⟩
            = some (arr', m') →
          m'.getPayload arr'.data = some ([(0 : Int), 1, 2, 3].take ARRAY_SIZE)
          ∧ ([(0 : Int), 1, 2, 3].take ARRAY_SIZE).length = ARRAY_SIZE)
      ∧ ((∃ arr' m', cow_ensure_unique ⟨0, 0⟩ ⟨[some [0, 1, 2, 3]], [some 2]⟩
            = some (arr', m')
          ∧ ∀ ys, m'.getPayload arr'.data = some ys →
              ys.length = [(0 : Int), 1, 2, 3].length)
         ↔ [(0 : Int), 1, 2, 3].length = ARRAY_SIZE)) :=
  ⟨rfl, by decide, rfl,
    cow_fork_fixed_size ⟨0, 0⟩ ⟨[some [0, 1, 2, 3]], [some 2]⟩ 2 [0, 1, 2, 3]
      rfl (by decide) rfl⟩

/-! The COW benchmark driver (claim C4).  `benchmark_cow`
(`memory_benchmark.c`, lines 202-264) creates the original array, initializes
it, takes `NUM_COPIES` cheap copies, and modifies each copy
`NUM_MODIFICATIONS` times, calling `cow_ensure_unique` once per copy (the
`made_unique` flag) before the first write; finally everything is freed.  The
run is parameterized by the write primitive `w`: `writeIdx` is the source's
raw store `copies[i].data[index] = rand()`; `writeExcl` is the monitored
store that refuses to write any payload whose shared counter is not 1.  The
claim "a payload with share_count > 1 is never written" is exactly the
success of the monitored run, which moreover produces the same final state as
the raw run. -/

/-- A monitored write: defined only when the writing handle's shared counter
is exactly 1 (the handle is exclusive). -/
def writeExcl (arr : cow_array) (i : Nat) (v : Int) (m : Mem) : Option Mem :=
  match m.getCounter arr.ref_count with
  | none => none
  | some c => if c = 1 then writeIdx arr i v m else none

/-- A sequence of writes through one handle. -/
def writeSeq (w : cow_array → Nat → Int → Mem → Option Mem)
    (arr : cow_array) : List (Nat × Int) → Mem → Option Mem
  | [], m => some m
  | iv :: rest, m =>
    match w arr iv.1 iv.2 m with
    | none => none
    | some m' => writeSeq w arr rest m'

/-- The copy loop: `copies[i] = cow_copy(original)` for `n` copies. -/
def mkCopies (arr : cow_array) : Nat → Mem → Option (List cow_array × Mem)
  | 0, m => some ([], m)
  | n + 1, m =>
    match cow_copy arr m with
    | none => none
    | some (h, m') =>
      match mkCopies arr n m' with
      | none => none
      | some (hs, m'') => some (h :: hs, m'')

/-- The per-copy modification loop with the `made_unique` flag: the flag is
false only on the first iteration, so the loop is `cow_ensure_unique` before
the first write, then the remaining writes. -/
def modifyCopy (w : cow_array → Nat → Int → Mem → Option Mem)
    (mods : List (Nat × Int)) (arr : cow_array) (m : Mem) :
    Option (cow_array × Mem) :=
  match mods with
  | [] => some (arr, m)
  | iv :: rest =>
    match cow_ensure_unique arr m with
    | none => none
    | some (arr', m') =>
      match w arr' iv.1 iv.2 m' with
      | none => none
      | some m'' =>
        match writeSeq w arr' rest m'' with
        | none => none
        | some m3 => some (arr', m3)

/-- The outer modification loop over all copies; copy `k` gets `mods k`. -/
def modifyCopies (w : cow_array → Nat → Int → Mem → Option Mem)
    (mods : Nat → List (Nat × Int)) :
    List cow_array → Nat → Mem → Option (List cow_array × Mem)
  | [], _, m => some ([], m)
  | arr :: rest, k, m =>
    match modifyCopy w (mods k) arr m with
    | none => none
    | some (arr', m') =>
      match modifyCopies w mods rest (k + 1) m' with
      | none => none
      | some (arrs, m'') => some (arr' :: arrs, m'')

/-- The cleanup loop: `cow_free(&copies[i])` for every copy. -/
def freeAll : List cow_array → Mem → Option Mem
  | [], m => some m
  | arr :: rest, m =>
    match cow_free arr m with
    | none => none
    | some m' => freeAll rest m'

/-- The writes of the per-copy modification loop of `benchmark_cow`: for copy
`k`, `NUM_MODIFICATIONS` stores at index `rand % ARRAY_SIZE` of a random
value, with the random streams supplied as `idx`/`val`. -/
def benchMods (idx : Nat → Nat → Nat) (val : Nat → Nat → Int) (k : Nat) :
    List (Nat × Int) :=
  (List.range NUM_MODIFICATIONS).map fun j => (idx k j % ARRAY_SIZE, val k j)

/-- The COW phases of `benchmark_cow`, parameterized by the write primitive:
create the original of `ARRAY_SIZE` elements, initialize it
(`original.data[i] = rand()`), take `NUM_COPIES` cheap copies, run the
modification loops, free the original and every copy. -/
def benchmark_cow_run (w : cow_array → Nat → Int → Mem → Option Mem)
    (junk : Nat → Int) (rand : Nat → Int) (mods : Nat → List (Nat × Int))
    (m0 : Mem) : Option Mem :=
  (writeSeq w (cow_create ARRAY_SIZE junk m0).1
      ((List.range ARRAY_SIZE).map fun i => (i, rand i))
      (cow_create ARRAY_SIZE junk m0).2).bind fun m2 =>
  (mkCopies (cow_create ARRAY_SIZE junk m0).1 NUM_COPIES m2).bind fun cm =>
  (modifyCopies w mods cm.1 0 cm.2).bind fun rm =>
  (cow_free (cow_create ARRAY_SIZE junk m0).1 rm.2).bind fun m5 =>
  freeAll rm.1 m5

/-- The defining equation of `benchmark_cow_run`, for rewriting without
unfolding (the initialization list over `List.range ARRAY_SIZE` must never be
evaluated). -/
theorem benchmark_cow_run_eq (w : cow_array → Nat → Int → Mem → Option Mem)
    (junk : Nat → Int) (rand : Nat → Int) (mods : Nat → List (Nat × Int))
    (m0 : Mem) :
    benchmark_cow_run w junk rand mods m0 =
      (writeSeq w (cow_create ARRAY_SIZE junk m0).1
          ((List.range ARRAY_SIZE).map fun i => (i, rand i))
          (cow_create ARRAY_SIZE junk m0).2).bind (fun m2 =>
      (mkCopies (cow_create ARRAY_SIZE junk m0).1 NUM_COPIES m2).bind fun cm =>
      (modifyCopies w mods cm.1 0 cm.2).bind fun rm =>
      (cow_free (cow_create ARRAY_SIZE junk m0).1 rm.2).bind fun m5 =>
      freeAll rm.1 m5) := rfl

/-- The created pair of `cow_create`, written out: the handle points at the
two fresh slots. -/
theorem cow_create_eq (size : Nat) (junk : Nat → Int) (m : Mem) :
    cow_create size junk m =
      (⟨m.payloads.length, m.counters.length⟩,
        ⟨m.payloads ++ [some ((List.range size).map junk)],
         m.counters ++ [some 1]⟩) := rfl

/-- A successful monitored write is also a raw write with the same result. -/
theorem writeExcl_toRaw {arr : cow_array} {i : Nat} {v : Int} {m m' : Mem}
    (h : writeExcl arr i v m = some m') : writeIdx arr i v m = some m' := by
  unfold writeExcl at h
  cases hc : m.getCounter arr.ref_count with
  | none => rw [hc] at h; exact absurd h (by simp)
  | some c =>
    rw [hc] at h
    by_cases h1 : c = 1
    · simpa [h1] using h
    · simp [h1] at h

/-- A successful monitored write sequence is also a raw write sequence with
the same result. -/
theorem writeSeq_toRaw {arr : cow_array} {m m' : Mem} :
    ∀ {mods : List (Nat × Int)}, writeSeq writeExcl arr mods m = some m' →
    writeSeq writeIdx arr mods m = some m' := by
  intro mods
  induction mods generalizing m with
  | nil => exact fun h => h
  | cons iv rest ih =>
    intro h
    unfold writeSeq at h ⊢
    cases hw : writeExcl arr iv.1 iv.2 m with
    | none => rw [hw] at h; exact absurd h (by simp)
    | some m1 =>
      rw [hw] at h
      rw [writeExcl_toRaw hw]
      exact ih h

/-- A successful monitored per-copy loop is also a raw one with the same
result. -/
theorem modifyCopy_toRaw {mods : List (Nat × Int)} {arr : cow_array} {m : Mem}
    {r : cow_array × Mem} (h : modifyCopy writeExcl mods arr m = some r) :
    modifyCopy writeIdx mods arr m = some r := by
  cases mods with
  | nil => exact h
  | cons iv rest =>
    simp only [modifyCopy] at h ⊢
    cases he : cow_ensure_unique arr m with
    | none => simp [he] at h
    | some am =>
      obtain ⟨arr1, m1⟩ := am
      simp only [he] at h ⊢
      cases hw : writeExcl arr1 iv.1 iv.2 m1 with
      | none => simp [hw] at h
      | some m2 =>
        simp only [hw] at h
        simp only [writeExcl_toRaw hw]
        cases hs : writeSeq writeExcl arr1 rest m2 with
        | none => simp [hs] at h
        | some m3 =>
          simp only [hs] at h
          simp only [writeSeq_toRaw hs]
          exact h

/-- A successful monitored modification phase is also a raw one with the same
result. -/
theorem modifyCopies_toRaw {mods : Nat → List (Nat × Int)} :
    ∀ {copies : List cow_array} {k : Nat} {m : Mem} {r : List cow_array × Mem},
    modifyCopies writeExcl mods copies k m = some r →
    modifyCopies writeIdx mods copies k m = some r := by
  intro copies
  induction copies with
  | nil => intro k m r h; exact h
  | cons arr rest ih =>
    intro k m r h
    simp only [modifyCopies] at h ⊢
    cases hc : modifyCopy writeExcl (mods k) arr m with
    | none => simp [hc] at h
    | some am =>
      obtain ⟨arr1, m1⟩ := am
      simp only [hc] at h
      simp only [modifyCopy_toRaw hc]
      cases hr : modifyCopies writeExcl mods rest (k + 1) m1 with
      | none => simp [hr] at h
      | some rm =>
        obtain ⟨arrs, m2⟩ := rm
        simp only [hr] at h
        simp only [ih hr]
        exact h

/-- A successful monitored benchmark run is also a raw run with the same
result. -/
theorem benchmark_cow_run_toRaw {junk rand : Nat → Int}
    {mods : Nat → List (Nat × Int)} {m0 m' : Mem}
    (h : benchmark_cow_run writeExcl junk rand mods m0 = some m') :
    benchmark_cow_run writeIdx junk rand mods m0 = some m' := by
  rw [benchmark_cow_run_eq] at h ⊢
  cases hs : writeSeq writeExcl (cow_create ARRAY_SIZE junk m0).1
      ((List.range ARRAY_SIZE).map fun i => (i, rand i))
      (cow_create ARRAY_SIZE junk m0).2 with
  | none => rw [hs, Option.none_bind] at h; exact absurd h (by simp)
  | some m2 =>
    rw [hs, Option.some_bind] at h
    rw [writeSeq_toRaw hs, Option.some_bind]
    cases hm : mkCopies (cow_create ARRAY_SIZE junk m0).1 NUM_COPIES m2 with
    | none => rw [hm, Option.none_bind] at h; exact absurd h (by simp)
    | some cm =>
      rw [hm, Option.some_bind] at h
      rw [Option.some_bind]
      cases hmo : modifyCopies writeExcl mods cm.1 0 cm.2 with
      | none => rw [hmo, Option.none_bind] at h; exact absurd h (by simp)
      | some rm =>
        rw [hmo, Option.some_bind] at h
        rw [modifyCopies_toRaw hmo, Option.some_bind]
        exact h

/-- `getPayload` depends only on the addressed slot. -/
theorem Mem.getPayload_congr {m1 m2 : Mem} {p : Nat}
    (h : m1.payloads[p]? = m2.payloads[p]?) : m1.getPayload p = m2.getPayload p := by
  simp [Mem.getPayload, h]

/-- `getCounter` depends only on the addressed slot. -/
theorem Mem.getCounter_congr {m1 m2 : Mem} {c : Nat}
    (h : m1.counters[c]? = m2.counters[c]?) : m1.getCounter c = m2.getCounter c := by
  simp [Mem.getCounter, h]

/-- Monitored writes through an exclusive handle (counter 1) with in-range
indices all succeed; they touch no counter and no other payload slot, and
preserve the payload's length. -/
theorem writeSeq_excl_ok (a : cow_array) :
    ∀ (mods : List (Nat × Int)) (m : Mem) (xs : List Int),
    m.getCounter a.ref_count = some 1 →
    m.getPayload a.data = some xs →
    (∀ iv ∈ mods, iv.1 < xs.length) →
    ∃ m' ys, writeSeq writeExcl a mods m = some m'
      ∧ m'.counters = m.counters
      ∧ m'.getPayload a.data = some ys ∧ ys.length = xs.length
      ∧ (∀ p, p ≠ a.data → m'.payloads[p]? = m.payloads[p]?)
      ∧ m'.payloads.length = m.payloads.length := by
  intro mods
  induction mods with
  | nil =>
    intro m xs _ hp _
    exact ⟨m, xs, rfl, rfl, hp, rfl, fun _ _ => rfl, rfl⟩
  | cons iv rest ih =>
    intro m xs hc hp hb
    have hplt : a.data < m.payloads.length := Mem.getPayload_live hp
    have hi : iv.1 < xs.length := hb iv (List.mem_cons_self _ _)
    have hw : writeExcl a iv.1 iv.2 m =
        some (m.setPayload a.data (xs.set iv.1 iv.2)) := by
      simp [writeExcl, hc, writeIdx, hp, hi]
    have hc1 : (m.setPayload a.data (xs.set iv.1 iv.2)).getCounter a.ref_count
        = some 1 := by simpa using hc
    have hp1 : (m.setPayload a.data (xs.set iv.1 iv.2)).getPayload a.data
        = some (xs.set iv.1 iv.2) :=
      Mem.getPayload_setPayload_self _ _ _ hplt
    have hb1 : ∀ jv ∈ rest, jv.1 < (xs.set iv.1 iv.2).length := by
      intro jv hjv
      rw [List.length_set]
      exact hb jv (List.mem_cons_of_mem _ hjv)
    obtain ⟨m', ys, hrun, hcnt, hpay, hlen, hpres, hplen⟩ := ih _ _ hc1 hp1 hb1
    refine ⟨m', ys, ?_, ?_, hpay, by rw [hlen, List.length_set], ?_, ?_⟩
    · simp only [writeSeq, hw]
      exact hrun
    · exact hcnt.trans rfl
    · intro p hne
      rw [hpres p hne]
      exact List.getElem?_set_ne (Ne.symm hne)
    · rw [hplen]
      show (m.payloads.set a.data (some (xs.set iv.1 iv.2))).length = m.payloads.length
      exact List.length_set _ _ _

/-- `mkCopies` on a live handle returns `n` aliases of that handle, raises
the shared counter by exactly `n`, and touches nothing else. -/
theorem mkCopies_ok (a : cow_array) :
    ∀ (n : Nat) (m : Mem) (v : Int),
    m.getCounter a.ref_count = some v →
    ∃ m', mkCopies a n m = some (List.replicate n a, m')
      ∧ m'.getCounter a.ref_count = some (v + n)
      ∧ m'.payloads = m.payloads
      ∧ (∀ c, c ≠ a.ref_count → m'.counters[c]? = m.counters[c]?)
      ∧ m'.counters.length = m.counters.length := by
  intro n
  induction n with
  | zero =>
    intro m v hc
    exact ⟨m, rfl, by simpa using hc, rfl, fun _ _ => rfl, rfl⟩
  | succ k ih =>
    intro m v hc
    have hclt : a.ref_count < m.counters.length := Mem.getCounter_live hc
    have hstep : cow_copy a m = some (a, m.setCounter a.ref_count (v + 1)) := by
      simp [cow_copy, hc]
    have hc1 : (m.setCounter a.ref_count (v + 1)).getCounter a.ref_count
        = some (v + 1) := Mem.getCounter_setCounter_self _ _ _ hclt
    obtain ⟨m', hrun, hcnt, hpay, hpres, hclen⟩ := ih _ _ hc1
    refine ⟨m', ?_, ?_, hpay.trans rfl, ?_, ?_⟩
    · show mkCopies a (k + 1) m = some (List.replicate (k + 1) a, m')
      simp only [mkCopies, hstep, hrun, List.replicate_succ]
    · rw [hcnt]
      congr 1
      push_cast
      ring
    · intro c hne
      rw [hpres c hne]
      exact List.getElem?_set_ne (Ne.symm hne)
    · rw [hclen]
      show (m.counters.set a.ref_count (some (v + 1))).length = m.counters.length
      exact List.length_set _ _ _

/-- One pass of the per-copy modification loop on a shared alias: the
`cow_ensure_unique` call privatizes the copy into two fresh slots, the
monitored writes then all see counter 1 and succeed; the original payload
and every other slot are untouched and the original counter drops by
exactly 1. -/
theorem modifyCopy_excl_ok (a : cow_array) (m : Mem) (v : Int) (xs : List Int)
    (mods : List (Nat × Int))
    (hc : m.getCounter a.ref_count = some v) (hv : 1 < v)
    (hp : m.getPayload a.data = some xs) (hsz : xs.length = ARRAY_SIZE)
    (hb : ∀ iv ∈ mods, iv.1 < ARRAY_SIZE) (hne : mods ≠ []) :
    ∃ m', modifyCopy writeExcl mods a m =
        some (⟨m.payloads.length, m.counters.length⟩, m')
      ∧ m'.getCounter a.ref_count = some (v - 1)
      ∧ m'.getCounter m.counters.length = some 1
      ∧ (∃ ys, m'.getPayload m.payloads.length = some ys ∧ ys.length = ARRAY_SIZE)
      ∧ (∀ p, p < m.payloads.length → m'.payloads[p]? = m.payloads[p]?)
      ∧ (∀ c, c < m.counters.length → c ≠ a.ref_count →
          m'.counters[c]? = m.counters[c]?)
      ∧ m'.payloads.length = m.payloads.length + 1
      ∧ m'.counters.length = m.counters.length + 1 := by
  have hclt : a.ref_count < m.counters.length := Mem.getCounter_live hc
  have hplt : a.data < m.payloads.length := Mem.getPayload_live hp
  have hlen : ARRAY_SIZE ≤ xs.length := le_of_eq hsz.symm
  have htake : (xs.take ARRAY_SIZE).length = ARRAY_SIZE := by
    simp [List.length_take, Nat.min_eq_left hlen]
  cases mods with
  | nil => exact absurd rfl hne
  | cons iv rest =>
    have hi : iv.1 < ARRAY_SIZE := hb iv (List.mem_cons_self _ _)
    have heq := cow_ensure_unique_shared_eq hc hv hp hlen
    set m1 : Mem := ⟨m.payloads ++ [some (xs.take ARRAY_SIZE)],
        (m.counters.set a.ref_count (some (v - 1))) ++ [some 1]⟩ with hm1
    have hf1 : m1.getCounter m.counters.length = some 1 := by
      show (((m.counters.set a.ref_count (some (v - 1))) ++
        [some 1])[m.counters.length]?).bind id = some 1
      rw [← List.length_set m.counters a.ref_count (some (v - 1)),
        List.getElem?_concat_length]
      rfl
    have hf2 : m1.getPayload m.payloads.length = some (xs.take ARRAY_SIZE) := by
      show ((m.payloads ++
        [some (xs.take ARRAY_SIZE)])[m.payloads.length]?).bind id
        = some (xs.take ARRAY_SIZE)
      rw [List.getElem?_concat_length]
      rfl
    have hw : writeExcl ⟨m.payloads.length, m.counters.length⟩ iv.1 iv.2 m1 =
        some (m1.setPayload m.payloads.length
          ((xs.take ARRAY_SIZE).set iv.1 iv.2)) := by
      simp [writeExcl, hf1, writeIdx, hf2, htake, hi]
    have hplt1 : m.payloads.length < m1.payloads.length := by
      simp [hm1]
    have hc2 : (m1.setPayload m.payloads.length
        ((xs.take ARRAY_SIZE).set iv.1 iv.2)).getCounter m.counters.length
        = some 1 := by simpa using hf1
    have hp2 : (m1.setPayload m.payloads.length
        ((xs.take ARRAY_SIZE).set iv.1 iv.2)).getPayload m.payloads.length
        = some ((xs.take ARRAY_SIZE).set iv.1 iv.2) :=
      Mem.getPayload_setPayload_self _ _ _ hplt1
    have hb2 : ∀ jv ∈ rest, jv.1 < ((xs.take ARRAY_SIZE).set iv.1 iv.2).length := by
      intro jv hjv
      rw [List.length_set, htake]
      exact hb jv (List.mem_cons_of_mem _ hjv)
    obtain ⟨m3, ys, hrun, hcnt, hpay, hylen, hpres, hplen⟩ :=
      writeSeq_excl_ok ⟨m.payloads.length, m.counters.length⟩ rest _ _ hc2 hp2 hb2
    have hcnt1 : m3.counters =
        (m.counters.set a.ref_count (some (v - 1))) ++ [some 1] :=
      hcnt.trans rfl
    refine ⟨m3, ?_, ?_, ?_, ⟨ys, hpay, by rw [hylen, List.length_set, htake]⟩,
      ?_, ?_, ?_, ?_⟩
    · simp only [modifyCopy, heq, hw, hrun]
    · simp only [Mem.getCounter, hcnt1]
      rw [List.getElem?_append_left (by simpa using hclt),
        List.getElem?_set_eq hclt]
      rfl
    · simp only [Mem.getCounter, hcnt1]
      rw [← List.length_set m.counters a.ref_count (some (v - 1)),
        List.getElem?_concat_length]
      rfl
    · intro p hplt2
      rw [hpres p (Nat.ne_of_lt hplt2)]
      show ((m1.payloads.set m.payloads.length _)[p]?) = m.payloads[p]?
      rw [List.getElem?_set_ne (Nat.ne_of_gt hplt2)]
      show (m.payloads ++ [some (xs.take ARRAY_SIZE)])[p]? = m.payloads[p]?
      exact List.getElem?_append_left hplt2
    · intro c hc3 hc4
      simp only [hcnt1]
      rw [List.getElem?_append_left (by simpa using hc3)]
      exact List.getElem?_set_ne (Ne.symm hc4)
    · rw [hplen]
      show (m1.payloads.set m.payloads.length _).length = m.payloads.length + 1
      rw [List.length_set]
      simp [hm1]
    · rw [hcnt1]
      simp

/-- The outer modification loop over `n` aliases of one shared handle: every
copy is privatized before its writes, the shared counter counts down to 1
(only the original handle left), the original payload survives untouched,
and the returned copies are exclusively owned (counter 1), live, fresh, and
pairwise distinct. -/
theorem modifyCopies_excl_ok (a : cow_array) (xs : List Int)
    (mods : Nat → List (Nat × Int))
    (hmods : ∀ j, mods j ≠ [] ∧ ∀ iv ∈ mods j, iv.1 < ARRAY_SIZE)
    (hsz : xs.length = ARRAY_SIZE) :
    ∀ (n k : Nat) (m : Mem),
    m.getCounter a.ref_count = some ((n : Int) + 1) →
    m.getPayload a.data = some xs →
    ∃ hs m', modifyCopies writeExcl mods (List.replicate n a) k m = some (hs, m')
      ∧ m'.getCounter a.ref_count = some 1
      ∧ m'.getPayload a.data = some xs
      ∧ (∀ p, p < m.payloads.length → m'.payloads[p]? = m.payloads[p]?)
      ∧ (∀ c, c < m.counters.length → c ≠ a.ref_count →
          m'.counters[c]? = m.counters[c]?)
      ∧ m.payloads.length ≤ m'.payloads.length
      ∧ m.counters.length ≤ m'.counters.length
      ∧ (∀ h2 ∈ hs, m'.getCounter h2.ref_count = some 1
          ∧ (∃ ys, m'.getPayload h2.data = some ys)
          ∧ m.counters.length ≤ h2.ref_count ∧ m.payloads.length ≤ h2.data)
      ∧ hs.Pairwise (fun x y => x.ref_count ≠ y.ref_count ∧ x.data ≠ y.data) := by
  intro n
  induction n with
  | zero =>
    intro k m hc hp
    refine ⟨[], m, rfl, by simpa using hc, hp, fun _ _ => rfl, fun _ _ _ => rfl,
      le_refl _, le_refl _, by simp, List.Pairwise.nil⟩
  | succ nk ih =>
    intro k m hc hp
    have hclt : a.ref_count < m.counters.length := Mem.getCounter_live hc
    have hplt : a.data < m.payloads.length := Mem.getPayload_live hp
    have hv : (1 : Int) < ((nk + 1 : Nat) : Int) + 1 := by push_cast; omega
    obtain ⟨m1, hrun1, hca1, hcf1, ⟨zs, hzs, hzslen⟩, hppres1, hcpres1,
      hplen1, hclen1⟩ :=
      modifyCopy_excl_ok a m _ xs (mods k) hc hv hp hsz (hmods k).2 (hmods k).1
    have hca1b : m1.getCounter a.ref_count = some ((nk : Int) + 1) := by
      rw [hca1]
      congr 1
      push_cast
      ring
    have hpa1 : m1.getPayload a.data = some xs := by
      rw [Mem.getPayload_congr (hppres1 a.data hplt)]
      exact hp
    obtain ⟨hs2, m2, hrun2, hca2, hpa2, hppres2, hcpres2, hple2, hcle2,
      hgood2, hpw2⟩ := ih (k + 1) m1 hca1b hpa1
    have hstep1 : m.payloads.length < m1.payloads.length := by omega
    have hstep2 : m.counters.length < m1.counters.length := by omega
    refine ⟨⟨m.payloads.length, m.counters.length⟩ :: hs2, m2, ?_, hca2, hpa2,
      ?_, ?_, by omega, by omega, ?_, ?_⟩
    · simp only [List.replicate_succ, modifyCopies, hrun1, hrun2]
    · intro p hplt2
      rw [hppres2 p (by omega), hppres1 p hplt2]
    · intro c hclt2 hcne
      rw [hcpres2 c (by omega) hcne, hcpres1 c hclt2 hcne]
    · intro h2 hh2
      rcases List.mem_cons.mp hh2 with hh2 | hh2
      · subst hh2
        refine ⟨?_, ⟨zs, ?_⟩, le_refl _, le_refl _⟩
        · rw [Mem.getCounter_congr (hcpres2 m.counters.length hstep2
            (Ne.symm (Nat.ne_of_lt hclt)))]
          exact hcf1
        · rw [Mem.getPayload_congr (hppres2 m.payloads.length hstep1)]
          exact hzs
      · obtain ⟨hg1, hg2, hg3, hg4⟩ := hgood2 h2 hh2
        exact ⟨hg1, hg2, by omega, by omega⟩
    · refine List.Pairwise.cons ?_ hpw2
      intro y hy
      obtain ⟨-, -, hg3, hg4⟩ := hgood2 y hy
      constructor
      · show m.counters.length ≠ y.ref_count
        omega
      · show m.payloads.length ≠ y.data
        omega

/-- Releasing a list of exclusively-owned (counter 1), live, pairwise-distinct
handles succeeds: each `cow_free` drops its counter to 0 and frees both
slots, leaving the other handles untouched. -/
theorem freeAll_ok :
    ∀ (hs : List cow_array) (m : Mem),
    (∀ h2 ∈ hs, m.getCounter h2.ref_count = some 1
      ∧ ∃ ys, m.getPayload h2.data = some ys) →
    hs.Pairwise (fun x y => x.ref_count ≠ y.ref_count ∧ x.data ≠ y.data) →
    ∃ m', freeAll hs m = some m' := by
  intro hs
  induction hs with
  | nil => exact fun m _ _ => ⟨m, rfl⟩
  | cons b rest ih =>
    intro m hgood hpw
    obtain ⟨hcb, ys, hpb⟩ := hgood b (List.mem_cons_self _ _)
    have hpb1 : (m.setCounter b.ref_count 0).getPayload b.data = some ys := by
      simpa using hpb
    have hstep : cow_free b m =
        some (((m.setCounter b.ref_count 0).freePayload b.data).freeCounter
          b.ref_count) := by
      simp [cow_free, hcb, hpb1]
    cases hpw with
    | cons hrel hpw2 =>
      have hgood2 : ∀ h2 ∈ rest,
          (((m.setCounter b.ref_count 0).freePayload b.data).freeCounter
            b.ref_count).getCounter h2.ref_count = some 1
          ∧ ∃ zs, (((m.setCounter b.ref_count 0).freePayload b.data).freeCounter
            b.ref_count).getPayload h2.data = some zs := by
        intro h2 hh2
        obtain ⟨hner, hned⟩ := hrel h2 hh2
        obtain ⟨hg1, zs, hg2⟩ := hgood h2 (List.mem_cons_of_mem _ hh2)
        constructor
        · rw [Mem.getCounter_freeCounter_ne _ hner, Mem.getCounter_freePayload,
            Mem.getCounter_setCounter_ne _ _ hner]
          exact hg1
        · refine ⟨zs, ?_⟩
          rw [Mem.getPayload_freeCounter, Mem.getPayload_freePayload_ne _ hned,
            Mem.getPayload_setCounter]
          exact hg2
      obtain ⟨m', hrun⟩ := ih _ hgood2 hpw2
      exact ⟨m', by simp only [freeAll, hstep, hrun]⟩

/-- C4: no mutation while shared.  Along the entire operation sequence of
`benchmark_cow` — create, initialization writes, `NUM_COPIES` shares, the
per-copy modification loops (which force the copy to exclusivity via
`cow_ensure_unique` before its first write), and the final releases — a
payload whose shared counter exceeds 1 is never written through any handle:
for every choice of random streams, the monitored run whose write primitive
`writeExcl` refuses to store through a handle whose counter is not exactly 1
completes successfully, and it computes exactly the same result as the raw
run built from the source's unchecked store `writeIdx`. -/
theorem benchmark_cow_no_shared_write (junk rand : Nat → Int)
    (idx : Nat → Nat → Nat) (val : Nat → Nat → Int) (m0 : Mem) :
    ∃ m', benchmark_cow_run writeExcl junk rand (benchMods idx val) m0 = some m'
      ∧ benchmark_cow_run writeIdx junk rand (benchMods idx val) m0 = some m' := by
  have hcC : (cow_create ARRAY_SIZE junk m0).2.getCounter
      (cow_create ARRAY_SIZE junk m0).1.ref_count = some 1 := by
    rw [cow_create_eq]
    show ((m0.counters ++ [some 1])[m0.counters.length]?).bind id = some 1
    rw [List.getElem?_concat_length]
    rfl
  have hpC : (cow_create ARRAY_SIZE junk m0).2.getPayload
      (cow_create ARRAY_SIZE junk m0).1.data
      = some ((List.range ARRAY_SIZE).map junk) := by
    rw [cow_create_eq]
    show ((m0.payloads ++ [some ((List.range ARRAY_SIZE).map junk)])[m0.payloads.length]?).bind id
      = some ((List.range ARRAY_SIZE).map junk)
    rw [List.getElem?_concat_length]
    rfl
  have hJlen : ((List.range ARRAY_SIZE).map junk).length = ARRAY_SIZE := by
    simp
  have hWb : ∀ iv ∈ (List.range ARRAY_SIZE).map (fun i => (i, rand i)),
      iv.1 < ((List.range ARRAY_SIZE).map junk).length := by
    intro iv hiv
    rw [hJlen]
    obtain ⟨i, hi, rfl⟩ := List.mem_map.mp hiv
    exact List.mem_range.mp hi
  obtain ⟨m2, ys2, h2run, h2cnt, h2pay, h2len, h2pres, h2plen⟩ :=
    writeSeq_excl_ok (cow_create ARRAY_SIZE junk m0).1 _ _ _ hcC hpC hWb
  have hc2 : m2.getCounter (cow_create ARRAY_SIZE junk m0).1.ref_count
      = some 1 := by
    simp only [Mem.getCounter, h2cnt]
    exact hcC
  obtain ⟨m3, h3run, h3cnt, h3pay, h3pres, h3clen⟩ :=
    mkCopies_ok (cow_create ARRAY_SIZE junk m0).1 NUM_COPIES _ _ hc2
  have hc3 : m3.getCounter (cow_create ARRAY_SIZE junk m0).1.ref_count
      = some ((NUM_COPIES : Int) + 1) := by
    have hcomm : (1 : Int) + (NUM_COPIES : Int) = (NUM_COPIES : Int) + 1 := by
      ring
    rw [h3cnt, hcomm]
  have hp3 : m3.getPayload (cow_create ARRAY_SIZE junk m0).1.data = some ys2 := by
    simp only [Mem.getPayload, h3pay]
    exact h2pay
  have hys2sz : ys2.length = ARRAY_SIZE := h2len.trans hJlen
  have hbm : ∀ j, benchMods idx val j ≠ []
      ∧ ∀ iv ∈ benchMods idx val j, iv.1 < ARRAY_SIZE := by
    intro j
    constructor
    · simp [benchMods, NUM_MODIFICATIONS]
    · intro iv hiv
      obtain ⟨i, hi, rfl⟩ := List.mem_map.mp hiv
      exact Nat.mod_lt _ (by decide)
  obtain ⟨hs4, m4, h4run, h4cnt, h4pay, h4ppres, h4cpres, h4ple, h4cle,
    h4good, h4pw⟩ :=
    modifyCopies_excl_ok (cow_create ARRAY_SIZE junk m0).1 ys2
      (benchMods idx val) hbm hys2sz NUM_COPIES 0 m3 hc3 hp3
  have hp4b : (m4.setCounter (cow_create ARRAY_SIZE junk m0).1.ref_count
      0).getPayload (cow_create ARRAY_SIZE junk m0).1.data = some ys2 := by
    simpa using h4pay
  have hfree : cow_free (cow_create ARRAY_SIZE junk m0).1 m4 =
      some (((m4.setCounter (cow_create ARRAY_SIZE junk m0).1.ref_count
        0).freePayload (cow_create ARRAY_SIZE junk m0).1.data).freeCounter
        (cow_create ARRAY_SIZE junk m0).1.ref_count) := by
    simp [cow_free, h4cnt, hp4b]
  have hrefval : (cow_create ARRAY_SIZE junk m0).1.ref_count
      = m0.counters.length := by rw [cow_create_eq]
  have hdataval : (cow_create ARRAY_SIZE junk m0).1.data
      = m0.payloads.length := by rw [cow_create_eq]
  have hClen : (cow_create ARRAY_SIZE junk m0).2.counters.length
      = m0.counters.length + 1 := by
    rw [cow_create_eq]
    show (m0.counters ++ [some 1]).length = m0.counters.length + 1
    simp
  have hPlen : (cow_create ARRAY_SIZE junk m0).2.payloads.length
      = m0.payloads.length + 1 := by
    rw [cow_create_eq]
    show (m0.payloads ++ [some ((List.range ARRAY_SIZE).map junk)]).length
      = m0.payloads.length + 1
    simp
  have h2clen : m2.counters.length = m0.counters.length + 1 := by
    rw [h2cnt, hClen]
  have h3Clen : m3.counters.length = m0.counters.length + 1 := by
    rw [h3clen, h2clen]
  have h2Plen : m2.payloads.length = m0.payloads.length + 1 := by
    rw [h2plen, hPlen]
  have h3Plen : m3.payloads.length = m0.payloads.length + 1 := by
    rw [show m3.payloads = m2.payloads from h3pay, h2Plen]
  have hm5good : ∀ h2 ∈ hs4,
      (((m4.setCounter (cow_create ARRAY_SIZE junk m0).1.ref_count
        0).freePayload (cow_create ARRAY_SIZE junk m0).1.data).freeCounter
        (cow_create ARRAY_SIZE junk m0).1.ref_count).getCounter h2.ref_count
        = some 1
      ∧ ∃ zs, (((m4.setCounter (cow_create ARRAY_SIZE junk m0).1.ref_count
        0).freePayload (cow_create ARRAY_SIZE junk m0).1.data).freeCounter
        (cow_create ARRAY_SIZE junk m0).1.ref_count).getPayload h2.data
        = some zs := by
    intro h2 hh2
    obtain ⟨hg1, ⟨zs, hg2⟩, hg3, hg4⟩ := h4good h2 hh2
    have hner : (cow_create ARRAY_SIZE junk m0).1.ref_count ≠ h2.ref_count := by
      rw [hrefval]
      omega
    have hned : (cow_create ARRAY_SIZE junk m0).1.data ≠ h2.data := by
      rw [hdataval]
      omega
    constructor
    · rw [Mem.getCounter_freeCounter_ne _ hner, Mem.getCounter_freePayload,
        Mem.getCounter_setCounter_ne _ _ hner]
      exact hg1
    · refine ⟨zs, ?_⟩
      rw [Mem.getPayload_freeCounter, Mem.getPayload_freePayload_ne _ hned,
        Mem.getPayload_setCounter]
      exact hg2
  obtain ⟨m6, h6run⟩ := freeAll_ok hs4 _ hm5good h4pw
  have hexcl : benchmark_cow_run writeExcl junk rand (benchMods idx val) m0
      = some m6 := by
    rw [benchmark_cow_run_eq]
    simp only [h2run, Option.some_bind, h3run, h4run, hfree, h6run]
  exact ⟨m6, hexcl, benchmark_cow_run_toRaw hexcl⟩
